import Mathlib

/-!
Shallow embedding of the UN-EX Fusion Simulator core (src/app.py) over the
real numbers.  Python floats are modelled as reals; Python's `/`, which
raises `ZeroDivisionError` on a zero divisor, is modelled by returning
`none` in the one place the divisor is caller-controlled
(`calculate_unex_diffusion`).  The arithmetic in `main` (app.py lines
137–179) is embedded as named functions of the values `main` feeds them.
-/

namespace App

/-- The minimum diffusion floor `min_diffusion_floor = 1e-4` m²/s defined in
`calculate_unex_diffusion` (app.py line 54). -/
noncomputable def min_diffusion_floor : ℝ := 1e-4

/-- `calculate_unex_diffusion` (app.py lines 19–58).  The Python division
`T / B` raises `ZeroDivisionError` when `B == 0`; that fallible division is
modelled by the `none` branch.  `delta` is a parameter of the source function
that its body never uses. -/
noncomputable def calculate_unex_diffusion
    (T B E_harmonic S_local alpha_coeff beta_coeff gamma_coeff delta : ℝ) :
    Option ℝ :=
  if B = 0 then none
  else
    let S_local_adjusted := max 0 S_local
    let diffusion_coefficient :=
      (alpha_coeff * (T / B)) - (beta_coeff * E_harmonic) +
        (gamma_coeff * S_local_adjusted)
    some (max diffusion_coefficient min_diffusion_floor)

/-- The value `calculate_unex_diffusion` returns when the division is
defined (its body past the division). -/
noncomputable def unex_value
    (T B E_harmonic S_local alpha_coeff beta_coeff gamma_coeff : ℝ) : ℝ :=
  max ((alpha_coeff * (T / B)) - (beta_coeff * E_harmonic) +
        (gamma_coeff * max 0 S_local))
    min_diffusion_floor

/-- The characteristic minor radius hard-coded in `main`
(app.py line 137): `a = 1.0`. -/
noncomputable def a : ℝ := 1.0

/-- Confinement time `tau_E = a ** 2 / D` (app.py lines 138, 157, 166) as a
function of the diffusion coefficient and the characteristic length. -/
noncomputable def confinementTime (D len : ℝ) : ℝ := len ^ 2 / D

/-- `D_Bohm = scaling_factor_bohm * (T / B)` (app.py line 156). -/
noncomputable def D_Bohm (T B scaling_factor_bohm : ℝ) : ℝ :=
  scaling_factor_bohm * (T / B)

/-- `tau_E_bohm = a ** 2 / D_Bohm` (app.py line 157). -/
noncomputable def tau_E_bohm (T B scaling_factor_bohm : ℝ) : ℝ :=
  a ^ 2 / D_Bohm T B scaling_factor_bohm

/-- `D_Neoclassical = scaling_factor_neoclassical * (T ** 0.5 / B ** 2)`
(app.py line 165); `T ** 0.5` is the real power. -/
noncomputable def D_Neoclassical (T B scaling_factor_neoclassical : ℝ) : ℝ :=
  scaling_factor_neoclassical * (T ^ (0.5 : ℝ) / B ^ 2)

/-- `tau_E_neoclassical = a ** 2 / D_Neoclassical` (app.py line 166). -/
noncomputable def tau_E_neoclassical (T B scaling_factor_neoclassical : ℝ) : ℝ :=
  a ^ 2 / D_Neoclassical T B scaling_factor_neoclassical

/-- The two display messages a comparison branch in `main` can select
(app.py lines 171–179): `better` stands for the `st.success` message,
`comparableOrWorse` for the `st.info` message. -/
inductive Msg
  | better
  | comparableOrWorse
deriving DecidableEq

/-- The Bohm comparison branch (app.py lines 171–174). -/
noncomputable def bohm_comparison (tau_unex tau_bohm : ℝ) : Msg :=
  if tau_unex > tau_bohm then Msg.better else Msg.comparableOrWorse

/-- The Neoclassical comparison branch (app.py lines 176–179). -/
noncomputable def neoclassical_comparison (tau_unex tau_neo : ℝ) : Msg :=
  if tau_unex > tau_neo then Msg.better else Msg.comparableOrWorse

/-- On a nonzero field the function returns `some` of its clamped value. -/
theorem calculate_unex_diffusion_eq_some
    (T B E_harmonic S_local α β γ δ : ℝ) (hB : B ≠ 0) :
    calculate_unex_diffusion T B E_harmonic S_local α β γ δ =
      some (unex_value T B E_harmonic S_local α β γ) := by
  simp [calculate_unex_diffusion, unex_value, hB]

/-- Clamping against a common floor preserves a strict inequality unless
both sides land on the floor. -/
theorem max_floor_lt_or_eq {x y c : ℝ} (h : x < y) :
    max x c < max y c ∨ (max x c = c ∧ max y c = c) := by
  rcases le_or_lt y c with hyc | hcy
  · exact Or.inr ⟨max_eq_right ((h.le).trans hyc), max_eq_right hyc⟩
  · refine Or.inl ?_
    rw [max_eq_left hcy.le]
    exact max_lt h hcy

/-- C1: for `B ≠ 0`, `calculate_unex_diffusion` returns
`max (alpha * (T / B) - beta * E_h + gamma * max 0 S_local) 1e-4`:
the input clamp, then the linear combination, then the output floor. -/
theorem unex_diffusion_formula
    (T B E_harmonic S_local α β γ δ : ℝ) (hB : B ≠ 0) :
    calculate_unex_diffusion T B E_harmonic S_local α β γ δ =
      some (max (α * (T / B) - β * E_harmonic + γ * max 0 S_local)
        (1e-4 : ℝ)) := by
  simp [calculate_unex_diffusion, min_diffusion_floor, hB]

/-- C1 witness at the spec's worked scenario
T=10, B=5, E_h=1, S_local=1/2, alpha=beta=gamma=1. -/
theorem unex_diffusion_formula_witness :
    calculate_unex_diffusion 10 5 1 (1/2) 1 1 1 (1/100) =
      some (max ((1 : ℝ) * (10 / 5) - 1 * 1 + 1 * max 0 (1/2)) (1e-4 : ℝ)) :=
  unex_diffusion_formula 10 5 1 (1/2) 1 1 1 (1/100) (by norm_num)

/-- C2: whenever `calculate_unex_diffusion` completes with a value, that
value is at least the floor `1e-4`. -/
theorem unex_diffusion_floor_invariant
    (T B E_harmonic S_local α β γ δ D : ℝ)
    (hD : calculate_unex_diffusion T B E_harmonic S_local α β γ δ = some D) :
    (1e-4 : ℝ) ≤ D := by
  by_cases hB : B = 0
  · simp [calculate_unex_diffusion, hB] at hD
  · rw [calculate_unex_diffusion_eq_some T B E_harmonic S_local α β γ δ hB]
      at hD
    have hval : unex_value T B E_harmonic S_local α β γ = D :=
      Option.some.inj hD
    have : min_diffusion_floor ≤ unex_value T B E_harmonic S_local α β γ :=
      le_max_right _ _
    rw [hval, min_diffusion_floor] at this
    exact this

/-- C2 witness: on the spec's worked scenario the result is 3/2 ≥ 1e-4. -/
theorem unex_diffusion_floor_invariant_witness : (1e-4 : ℝ) ≤ 3/2 :=
  unex_diffusion_floor_invariant 10 5 1 (1/2) 1 1 1 (1/100) (3/2) (by
    rw [calculate_unex_diffusion_eq_some 10 5 1 (1/2) 1 1 1 (1/100)
      (by norm_num)]
    unfold unex_value min_diffusion_floor
    norm_num)

/-- C3: the confinement time computed from a diffusion coefficient `D` and a
characteristic length equals length times length over `D` exactly. -/
theorem confinementTime_eq (D len : ℝ) (hD : 0 < D) (hlen : 0 < len) :
    confinementTime D len = len * len / D := by
  rw [confinementTime, pow_two]

/-- C3 witness at D = 2, len = 3. -/
theorem confinementTime_eq_witness : confinementTime 2 3 = 3 * 3 / 2 :=
  confinementTime_eq 2 3 (by norm_num) (by norm_num)

/-- C4: for negative `S_local` the function returns exactly what it returns
at `S_local = 0`, all other arguments fixed. -/
theorem unex_diffusion_clamp
    (T B E_harmonic S_local α β γ δ : ℝ) (hS : S_local < 0) :
    calculate_unex_diffusion T B E_harmonic S_local α β γ δ =
      calculate_unex_diffusion T B E_harmonic 0 α β γ δ := by
  have hmax : max (0 : ℝ) S_local = 0 := max_eq_left hS.le
  simp [calculate_unex_diffusion, hmax]

/-- C4 witness at S_local = -1. -/
theorem unex_diffusion_clamp_witness :
    calculate_unex_diffusion 10 5 1 (-1) 1 1 1 (1/100) =
      calculate_unex_diffusion 10 5 1 0 1 1 1 (1/100) :=
  unex_diffusion_clamp 10 5 1 (-1) 1 1 1 (1/100) (by norm_num)

/-- C5: with all other arguments fixed and the division defined, raising
beta strictly lowers the returned value (or both values sit at the floor)
whenever `E_harmonic > 0`; raising gamma strictly raises it when
`S_local > 0`, and raising alpha strictly raises it when `T / B > 0`, in
each case up to saturation at the floor. -/
theorem unex_diffusion_monotonicity
    (T B E_harmonic S_local α β γ δ : ℝ) (hB : B ≠ 0) :
    (∀ β' D D', 0 < E_harmonic → β < β' →
        calculate_unex_diffusion T B E_harmonic S_local α β γ δ = some D →
        calculate_unex_diffusion T B E_harmonic S_local α β' γ δ = some D' →
        D' < D ∨ (D' = min_diffusion_floor ∧ D = min_diffusion_floor)) ∧
    (∀ γ' D D', 0 < S_local → γ < γ' →
        calculate_unex_diffusion T B E_harmonic S_local α β γ δ = some D →
        calculate_unex_diffusion T B E_harmonic S_local α β γ' δ = some D' →
        D < D' ∨ (D = min_diffusion_floor ∧ D' = min_diffusion_floor)) ∧
    (∀ α' D D', 0 < T / B → α < α' →
        calculate_unex_diffusion T B E_harmonic S_local α β γ δ = some D →
        calculate_unex_diffusion T B E_harmonic S_local α' β γ δ = some D' →
        D < D' ∨ (D = min_diffusion_floor ∧ D' = min_diffusion_floor)) := by
  refine ⟨?_, ?_, ?_⟩
  · intro β' D D' hE hβlt hD hD'
    rw [calculate_unex_diffusion_eq_some T B E_harmonic S_local α β γ δ hB]
      at hD
    rw [calculate_unex_diffusion_eq_some T B E_harmonic S_local α β' γ δ hB]
      at hD'
    have hDv : D = unex_value T B E_harmonic S_local α β γ :=
      (Option.some.inj hD).symm
    have hDv' : D' = unex_value T B E_harmonic S_local α β' γ :=
      (Option.some.inj hD').symm
    subst hDv hDv'
    unfold unex_value
    exact max_floor_lt_or_eq (by
      have := mul_lt_mul_of_pos_right hβlt hE
      linarith)
  · intro γ' D D' hS hγlt hD hD'
    rw [calculate_unex_diffusion_eq_some T B E_harmonic S_local α β γ δ hB]
      at hD
    rw [calculate_unex_diffusion_eq_some T B E_harmonic S_local α β γ' δ hB]
      at hD'
    have hDv : D = unex_value T B E_harmonic S_local α β γ :=
      (Option.some.inj hD).symm
    have hDv' : D' = unex_value T B E_harmonic S_local α β γ' :=
      (Option.some.inj hD').symm
    subst hDv hDv'
    unfold unex_value
    have hm : max (0 : ℝ) S_local = S_local := max_eq_right hS.le
    rw [hm]
    exact max_floor_lt_or_eq (by
      have := mul_lt_mul_of_pos_right hγlt hS
      linarith)
  · intro α' D D' hTB hαlt hD hD'
    rw [calculate_unex_diffusion_eq_some T B E_harmonic S_local α β γ δ hB]
      at hD
    rw [calculate_unex_diffusion_eq_some T B E_harmonic S_local α' β γ δ hB]
      at hD'
    have hDv : D = unex_value T B E_harmonic S_local α β γ :=
      (Option.some.inj hD).symm
    have hDv' : D' = unex_value T B E_harmonic S_local α' β γ :=
      (Option.some.inj hD').symm
    subst hDv hDv'
    unfold unex_value
    exact max_floor_lt_or_eq (by
      have := mul_lt_mul_of_pos_right hαlt hTB
      linarith)

/-- C5 witness at T = B = E_harmonic = S_local = alpha = beta = gamma = 1,
delta = 0, where the field is nonzero. -/
theorem unex_diffusion_monotonicity_witness :
    (∀ β' D D', (0 : ℝ) < 1 → (1 : ℝ) < β' →
        calculate_unex_diffusion 1 1 1 1 1 1 1 0 = some D →
        calculate_unex_diffusion 1 1 1 1 1 β' 1 0 = some D' →
        D' < D ∨ (D' = min_diffusion_floor ∧ D = min_diffusion_floor)) ∧
    (∀ γ' D D', (0 : ℝ) < 1 → (1 : ℝ) < γ' →
        calculate_unex_diffusion 1 1 1 1 1 1 1 0 = some D →
        calculate_unex_diffusion 1 1 1 1 1 1 γ' 0 = some D' →
        D < D' ∨ (D = min_diffusion_floor ∧ D' = min_diffusion_floor)) ∧
    (∀ α' D D', (0 : ℝ) < 1 / 1 → (1 : ℝ) < α' →
        calculate_unex_diffusion 1 1 1 1 1 1 1 0 = some D →
        calculate_unex_diffusion 1 1 1 1 α' 1 1 0 = some D' →
        D < D' ∨ (D = min_diffusion_floor ∧ D' = min_diffusion_floor)) :=
  unex_diffusion_monotonicity 1 1 1 1 1 1 1 0 (by norm_num)

/-- C6: the `delta` argument has no effect on the result of
`calculate_unex_diffusion`. -/
theorem delta_has_no_effect
    (T B E_harmonic S_local α β γ δ1 δ2 : ℝ) :
    calculate_unex_diffusion T B E_harmonic S_local α β γ δ1 =
      calculate_unex_diffusion T B E_harmonic S_local α β γ δ2 := rfl

/-- C7: at `B = 0` the division fault propagates — the function yields no
value rather than the floor or any other number. -/
theorem division_fault_propagates (T E_harmonic S_local α β γ δ : ℝ) :
    calculate_unex_diffusion T 0 E_harmonic S_local α β γ δ = none := by
  simp [calculate_unex_diffusion]

/-- C8: the two reference coefficients follow their scaling formulas, and
each confinement time divides by the raw, unfloored coefficient — at
T = 1/100000, B = 1 the Bohm coefficient is strictly below the floor and is
still the divisor. -/
theorem reference_models_unfloored (T B k_bohm k_neo : ℝ) :
    D_Bohm T B k_bohm = k_bohm * (T / B) ∧
    D_Neoclassical T B k_neo = k_neo * (T ^ (0.5 : ℝ) / B ^ 2) ∧
    tau_E_bohm T B k_bohm = a ^ 2 / D_Bohm T B k_bohm ∧
    tau_E_neoclassical T B k_neo = a ^ 2 / D_Neoclassical T B k_neo ∧
    D_Bohm (1/100000) 1 1 < min_diffusion_floor ∧
    tau_E_bohm (1/100000) 1 1 = a ^ 2 / D_Bohm (1/100000) 1 1 :=
  ⟨rfl, rfl, rfl, rfl, by norm_num [D_Bohm, min_diffusion_floor], rfl⟩

/-- C9: each comparison branch selects the `better` message exactly when
the primary confinement time strictly exceeds the reference one, and the
`comparableOrWorse` message on equality. -/
theorem comparison_messages (tau_unex tau_ref : ℝ) :
    (bohm_comparison tau_unex tau_ref = Msg.better ↔ tau_ref < tau_unex) ∧
    (neoclassical_comparison tau_unex tau_ref = Msg.better ↔
      tau_ref < tau_unex) ∧
    bohm_comparison tau_ref tau_ref = Msg.comparableOrWorse ∧
    neoclassical_comparison tau_ref tau_ref = Msg.comparableOrWorse := by
  refine ⟨?_, ?_, ?_, ?_⟩
  · unfold bohm_comparison
    split_ifs with h
    · simp [h]
    · simp [h]
  · unfold neoclassical_comparison
    split_ifs with h
    · simp [h]
    · simp [h]
  · unfold bohm_comparison
    exact if_neg (lt_irrefl tau_ref)
  · unfold neoclassical_comparison
    exact if_neg (lt_irrefl tau_ref)

/-- C10: every confinement time is built with the hard-coded length `a = 1`,
so for positive coefficients the branch condition reduces to comparing the
diffusion coefficients: the primary time exceeds the reference time exactly
when the primary coefficient is strictly smaller. -/
theorem comparison_depends_only_on_D
    (T B k_bohm k_neo D_primary D_ref : ℝ)
    (hP : 0 < D_primary) (hR : 0 < D_ref) :
    a = 1 ∧
    tau_E_bohm T B k_bohm = confinementTime (D_Bohm T B k_bohm) a ∧
    tau_E_neoclassical T B k_neo =
      confinementTime (D_Neoclassical T B k_neo) a ∧
    (confinementTime D_ref a < confinementTime D_primary a ↔
      D_primary < D_ref) := by
  have ha : a = (1 : ℝ) := by norm_num [a]
  refine ⟨ha, rfl, rfl, ?_⟩
  simp only [confinementTime, ha, one_pow]
  exact one_div_lt_one_div hR hP

/-- C10 witness at D_primary = 1, D_ref = 2 (and T = B = 1 for the
reference formulas). -/
theorem comparison_depends_only_on_D_witness :
    a = 1 ∧
    tau_E_bohm 1 1 1 = confinementTime (D_Bohm 1 1 1) a ∧
    tau_E_neoclassical 1 1 1 = confinementTime (D_Neoclassical 1 1 1) a ∧
    (confinementTime 2 a < confinementTime 1 a ↔ (1 : ℝ) < 2) :=
  comparison_depends_only_on_D 1 1 1 1 1 2 (by norm_num) (by norm_num)

end App
